import Mathlib

/-!
# SmartHire core: scoring engine, chunker, vector index, and UI glue

A shallow embedding of the SmartHire candidate-scoring and
retrieval-augmented-query core, together with the frontend fragments that
consume it, and proofs of the behavioural properties stated in the
specification.

The scoring engine, chunker and vector index live in the backend services
(`scoring.py`, `rag_langchain.py`), which are not part of the visible
sources; those parts are modelled from the specification text, as noted on
each definition.  The chat page, score rendering and source-card rendering
are embedded from the visible frontend sources
(`src/unnamed/part_000`, `src/frontend/src/pages/JobDetail.jsx`,
`src/frontend/src/pages/Candidates.jsx`).
-/

namespace SmartHire

/-- Decidable equality for `Except`, so that concrete runs of the fallible
operations can be checked by `decide`. -/
instance {ε α : Type} [DecidableEq ε] [DecidableEq α] : DecidableEq (Except ε α)
  | .ok a, .ok b =>
    if h : a = b then .isTrue (by rw [h])
    else .isFalse (by intro hc; cases hc; exact h rfl)
  | .ok _, .error _ => .isFalse (by intro hc; cases hc)
  | .error _, .ok _ => .isFalse (by intro hc; cases hc)
  | .error e, .error f =>
    if h : e = f then .isTrue (by rw [h])
    else .isFalse (by intro hc; cases hc; exact h rfl)

/-! ## Chunker -/

/-- Modelled from the spec: failure taxonomy of the chunking configuration
(section 7); the backend chunking code is not in the visible sources. -/
inductive ChunkError where
  | configError
  deriving DecidableEq

/-- Modelled from the spec: whitespace characters used to recognise
whitespace-only input text (section 4.1). -/
def isWhitespaceChar (c : Char) : Bool :=
  c = ' ' || c = '\t' || c = '\n' || c = '\r'

/-- Modelled from the spec: start offsets of successive chunks.  Starts
advance by `step = chunkSize - overlap`; a start is emitted while it lies
inside the text, so there are `ceil (len / step)` chunks. -/
def chunkStarts (len step : Nat) : List Nat :=
  if step = 0 then []
  else (List.range ((len + step - 1) / step)).map fun i => i * step

/-- Modelled from the spec: `chunk(text, chunkSize, overlap)` splits text by
character count into windows of `chunkSize` whose starts advance by
`chunkSize - overlap` (section 4.1).  Empty or whitespace-only text yields
zero chunks; a chunk size smaller than the overlap is an invalid
configuration reported as `ChunkError.configError`. -/
def chunk (text : List Char) (chunkSize overlap : Nat) :
    Except ChunkError (List (Nat × List Char)) :=
  if chunkSize < overlap then
    .error .configError
  else if text.all isWhitespaceChar then
    .ok []
  else
    .ok ((chunkStarts text.length (chunkSize - overlap)).enum.map
      fun p => (p.1, (text.drop p.2).take chunkSize))

/-! ## Scoring engine -/

/-- Modelled from the spec: the structured view of a resume consumed by the
scoring engine (section 3). -/
structure ResumeProfile where
  skills : List String
  totalExperienceYears : ℚ
  rawText : String
  summary : String

/-- Modelled from the spec: the job requirements a resume is scored against
(section 3). -/
structure JobRequirement where
  requiredSkills : List String
  minimumExperienceYears : ℚ
  descriptionText : String

/-- Modelled from the spec: the result of one scoring call (section 3). -/
structure ScoreResult where
  skillScore : ℚ
  experienceScore : ℚ
  semanticScore : Option ℚ
  totalScore : ℚ
  deriving DecidableEq

/-- Modelled from the spec: scoring fails only on malformed input, such as
negative experience years (sections 4.3 and 7). -/
inductive ScoringError where
  | invalidInput
  deriving DecidableEq

/-- Caps a value at `cap`; the scoring formulas cap component scores at
100.  Written as an explicit conditional so that concrete scores evaluate
by kernel reduction. -/
def capAt (cap x : ℚ) : ℚ :=
  if cap ≤ x then cap else x

/-- The non-negative part of a value, used to clamp cosine similarity to
non-negative.  Written as an explicit conditional so that concrete scores
evaluate by kernel reduction. -/
def nonnegPart (x : ℚ) : ℚ :=
  if x ≤ 0 then 0 else x

/-- The denominator `max 1 n` of the skill-score formula, as a rational. -/
def atLeastOne (n : ℕ) : ℚ :=
  if n = 0 then 1 else n

/-- Modelled from the spec: case-insensitive canonical form of a skill
(section 4.3, step 1). -/
def normalizeSkill (s : String) : List Char :=
  s.toList.map Char.toLower

/-- Splits a character list on spaces, dropping empty pieces; used for the
common-token test of the loose skill match. -/
def splitOnSpace (cs : List Char) : List (List Char) :=
  (cs.foldr
    (fun c acc =>
      if c = ' ' then [] :: acc
      else
        match acc with
        | [] => [[c]]
        | t :: ts => (c :: t) :: ts)
    [[]]).filter fun t => !t.isEmpty

/-- Modelled from the spec: the tokens of a skill after normalization. -/
def skillTokens (s : String) : List (List Char) :=
  splitOnSpace (normalizeSkill s)

/-- Decides whether `needle` occurs as a contiguous substring of `hay`. -/
def containsSub (needle hay : List Char) : Bool :=
  (List.range (hay.length + 1)).any fun i => needle.isPrefixOf (hay.drop i)

/-- Modelled from the spec: a required skill matches a candidate skill
exactly when the normalized forms coincide (section 4.3, step 1). -/
def exactSkillMatch (req cand : String) : Bool :=
  decide (normalizeSkill req = normalizeSkill cand)

/-- Modelled from the spec: a loose (non-exact) match counts when the
required skill is a substring of the candidate skill or the two share a
common token (section 4.3, step 1). -/
def looseSkillMatch (req cand : String) : Bool :=
  !exactSkillMatch req cand &&
    (containsSub (normalizeSkill req) (normalizeSkill cand) ||
      (skillTokens req).any fun t => (skillTokens cand).contains t)

/-- Modelled from the spec: skill score, weight 0.5.  Score is
`100 * (exact + 0.5 * loose) / max 1 |requiredSkills|`, capped at 100
(section 4.3, step 1). -/
def skillScore (resumeSkills requiredSkills : List String) : ℚ :=
  let exact :=
    (requiredSkills.filter fun r => resumeSkills.any fun c => exactSkillMatch r c).length
  let loose :=
    (requiredSkills.filter fun r =>
      (!resumeSkills.any fun c => exactSkillMatch r c) &&
        (resumeSkills.any fun c => looseSkillMatch r c)).length
  capAt 100 (100 * ((exact : ℚ) + (1 / 2) * (loose : ℚ)) / atLeastOne requiredSkills.length)

/-- Modelled from the spec: experience score, weight 0.25.  A zero (or
absent) requirement scores 100; otherwise the ratio of years to the
requirement, scaled to 100 and capped (section 4.3, step 2). -/
def experienceScore (totalYears minYears : ℚ) : ℚ :=
  if minYears = 0 then 100 else capAt 100 (100 * totalYears / minYears)

/-- Dot product of two rational vectors (truncating to the shorter). -/
def dot (a b : List ℚ) : ℚ :=
  (List.zipWith (fun x y => x * y) a b).sum

/-- Modelled from the spec: semantic score, weight 0.25.  Embeddings are
pre-normalized to unit length by the embedding-provider contract
(section 4.2), so cosine similarity is the dot product; it is clamped to
non-negative before scaling (section 4.3, step 3).  The component is absent
when either embedding is absent. -/
def semanticScore : Option (List ℚ) → Option (List ℚ) → Option ℚ
  | some a, some b => some (100 * nonnegPart (dot a b))
  | _, _ => none

/-- Modelled from the spec: total score is the weighted sum of the present
components with weights 0.5 / 0.25 / 0.25, renormalized over the present
components when the semantic component is absent (section 4.3, step 4). -/
def totalFromComponents (sk ex : ℚ) : Option ℚ → ℚ
  | some s => (1 / 2) * sk + (1 / 4) * ex + (1 / 4) * s
  | none => ((1 / 2) * sk + (1 / 4) * ex) / (3 / 4)

/-- Modelled from the spec: the scoring engine's public operation
`score(resume, job, resumeEmbedding, jobEmbedding)` (section 4.3).
Malformed input (negative experience years) is rejected with
`ScoringError.invalidInput` before computation. -/
def score (resume : ResumeProfile) (job : JobRequirement)
    (resumeEmbedding jobEmbedding : Option (List ℚ)) :
    Except ScoringError ScoreResult :=
  if resume.totalExperienceYears < 0 ∨ job.minimumExperienceYears < 0 then
    .error .invalidInput
  else
    .ok ⟨skillScore resume.skills job.requiredSkills,
      experienceScore resume.totalExperienceYears job.minimumExperienceYears,
      semanticScore resumeEmbedding jobEmbedding,
      totalFromComponents (skillScore resume.skills job.requiredSkills)
        (experienceScore resume.totalExperienceYears job.minimumExperienceYears)
        (semanticScore resumeEmbedding jobEmbedding)⟩

/-! ## Batch ranking -/

/-- Modelled from the spec: the per-resume data the batch ranking operation
sorts (section 4.3, step 5).  `createdAt` is the resume creation order. -/
structure ScoredResume where
  resumeId : Nat
  totalScore : ℚ
  createdAt : Nat

/-- Modelled from the spec: the ranking order, descending `totalScore` with
ties broken by earliest resume creation order (section 4.3, step 5). -/
def rankLE (a b : ScoredResume) : Prop :=
  b.totalScore < a.totalScore ∨
    (a.totalScore = b.totalScore ∧ a.createdAt ≤ b.createdAt)

instance : DecidableRel rankLE := fun a b => by
  unfold rankLE; infer_instance

instance : IsTotal ScoredResume rankLE where
  total a b := by
    unfold rankLE
    rcases lt_trichotomy a.totalScore b.totalScore with h | h | h
    · exact Or.inr (Or.inl h)
    · rcases Nat.le_total a.createdAt b.createdAt with hc | hc
      · exact Or.inl (Or.inr ⟨h, hc⟩)
      · exact Or.inr (Or.inr ⟨h.symm, hc⟩)
    · exact Or.inl (Or.inl h)

instance : IsTrans ScoredResume rankLE where
  trans a b c hab hbc := by
    unfold rankLE at hab hbc ⊢
    rcases hab with hab | ⟨hab, hab2⟩ <;> rcases hbc with hbc | ⟨hbc, hbc2⟩
    · exact Or.inl (hbc.trans hab)
    · exact Or.inl (hbc ▸ hab)
    · exact Or.inl (hab ▸ hbc)
    · exact Or.inr ⟨hab.trans hbc, hab2.trans hbc2⟩

/-- Modelled from the spec: the batch ranking operation over all resumes for
one job: sort by the ranking order and assign `rank` as the 1-based position
(section 4.3, step 5). -/
def rankBatch (l : List ScoredResume) : List (ScoredResume × Nat) :=
  (List.insertionSort rankLE l).enum.map fun p => (p.2, p.1 + 1)

/-! ## Vector index -/

/-- Modelled from the spec: a stored chunk with its embedding and scope
metadata (section 3). -/
structure Chunk where
  id : Nat
  sourceResumeId : Nat
  scopeId : Option Nat
  text : String
  index : Nat
  embedding : List ℚ

/-- Modelled from the spec: cosine similarity on stored embedding vectors,
which are pre-normalized to unit length (section 4.2), clamped to
non-negative. -/
def cosineSimilarity (q v : List ℚ) : ℚ :=
  nonnegPart (dot q v)

/-- Modelled from the spec: the retrieval order of `query`, descending
cosine similarity with ties broken by ascending chunk index for determinism
(section 4.2). -/
def queryRel (q : List ℚ) (c d : Chunk) : Prop :=
  cosineSimilarity q d.embedding < cosineSimilarity q c.embedding ∨
    (cosineSimilarity q c.embedding = cosineSimilarity q d.embedding ∧
      c.index ≤ d.index)

instance (q : List ℚ) : DecidableRel (queryRel q) := fun c d => by
  unfold queryRel; infer_instance

instance (q : List ℚ) : IsTotal Chunk (queryRel q) where
  total c d := by
    unfold queryRel
    rcases lt_trichotomy (cosineSimilarity q c.embedding) (cosineSimilarity q d.embedding)
      with h | h | h
    · exact Or.inr (Or.inl h)
    · rcases Nat.le_total c.index d.index with hi | hi
      · exact Or.inl (Or.inr ⟨h, hi⟩)
      · exact Or.inr (Or.inr ⟨h.symm, hi⟩)
    · exact Or.inl (Or.inl h)

instance (q : List ℚ) : IsTrans Chunk (queryRel q) where
  trans c d e hcd hde := by
    unfold queryRel at hcd hde ⊢
    rcases hcd with hcd | ⟨hcd, hcd2⟩ <;> rcases hde with hde | ⟨hde, hde2⟩
    · exact Or.inl (hde.trans hcd)
    · exact Or.inl (hde ▸ hcd)
    · exact Or.inl (hcd ▸ hde)
    · exact Or.inr ⟨hcd.trans hde, hcd2.trans hde2⟩

/-- Modelled from the spec: whether a chunk passes the scope filter, which
restricts results to a given job or, when absent, to the whole corpus
(section 4.2). -/
def scopeMatches (scopeFilter : Option Nat) (c : Chunk) : Bool :=
  match scopeFilter with
  | none => true
  | some j => decide (c.scopeId = some j)

/-- Modelled from the spec: `query(queryVector, topK, scopeFilter)` returns
at most `topK` chunks of the requested scope, sorted by descending cosine
similarity with ties broken by ascending chunk index, each paired with its
similarity (section 4.2). -/
def query (index : List Chunk) (queryVector : List ℚ) (topK : Nat)
    (scopeFilter : Option Nat) : List (Chunk × ℚ) :=
  ((List.insertionSort (queryRel queryVector)
      (index.filter (scopeMatches scopeFilter))).take topK).map
    fun c => (c, cosineSimilarity queryVector c.embedding)

/-! ## Frontend: AI query page (embedded from `src/unnamed/part_000`) -/

/-- Role of a chat message on the AI query page. -/
inductive ChatRole where
  | user
  | assistant
  | system
  deriving DecidableEq

/-- A chat message held in the page's `messages` state. -/
structure ChatMessage where
  role : ChatRole
  content : String

/-- Embeds `AIQueryPage.queryMutation` (src/unnamed/part_000, lines
327-330): non-system messages are each mapped to a pair carrying the
message content on the side selected by its role and the empty string on
the other side, then only pairs whose two sides are both non-empty (JS
truthiness) are kept. -/
def chatHistory (messages : List ChatMessage) : List (String × String) :=
  ((messages.filter fun m => decide (m.role ≠ ChatRole.system)).map fun m =>
    (if m.role = ChatRole.user then m.content else "",
     if m.role = ChatRole.assistant then m.content else "")).filter
    fun p => !p.1.isEmpty && !p.2.isEmpty

/-- The page state consulted by `handleSubmit` and the send button:
the input text and whether the query mutation is pending. -/
structure AIQueryState where
  input : String
  pending : Bool

/-- The characters of a string with whitespace stripped from both ends;
the model of the JS `input.trim()` call. -/
def trimText (s : String) : List Char :=
  ((s.toList.dropWhile isWhitespaceChar).reverse.dropWhile isWhitespaceChar).reverse

/-- Embeds `AIQueryPage.handleSubmit` (src/unnamed/part_000, line 363): the
request is sent with the input text unless the trimmed input is empty or a
mutation is pending, in which case it returns early. -/
def handleSubmit (s : AIQueryState) : Option String :=
  if trimText s.input = [] ∨ s.pending = true then none else some s.input

/-- Embeds the send button's disabled condition
(src/unnamed/part_000, line 458). -/
def sendDisabled (s : AIQueryState) : Bool :=
  decide (trimText s.input = []) || s.pending

/-! ## Frontend: score and relevance rendering -/

/-- Embeds `resume.score.toFixed(1)` (JobDetail.jsx line 268,
Candidates.jsx line 193): the numeric value displayed for a score, rounded
to one decimal place. -/
def displayScore (s : ℚ) : ℚ :=
  (round (10 * s) : ℤ) / 10

/-- Embeds `(source.relevance_score * 100).toFixed(0)` (SourceCard,
src/unnamed/part_000, line 536): the percentage displayed for a relevance
score. -/
def relevancePercent (r : ℚ) : ℤ :=
  round (100 * r)

/-! ## Demo inputs used by the concrete scenarios -/

/-- The resume of the scoring scenario: skills Python and Docker, six years
of experience. -/
def demoResume : ResumeProfile :=
  ⟨["Python", "Docker"], 6, "", ""⟩

/-- The job of the scoring scenario: requires Python and AWS, minimum five
years of experience. -/
def demoJob : JobRequirement :=
  ⟨["Python", "AWS"], 5, ""⟩

/-- A list of scored resumes for the ranking scenario. -/
def demoBatch : List ScoredResume :=
  [⟨1, 30, 0⟩, ⟨2, 80, 1⟩]

/-- A stored chunk for the retrieval scenario. -/
def demoChunk : Chunk :=
  ⟨0, 1, some 1, "resume text", 0, [1, 0]⟩

/-- A one-chunk index for the retrieval scenario. -/
def demoIndex : List Chunk :=
  [demoChunk]

/-! ## Theorems -/

/-- Claim C5: `chunk(text, 1000, 100)` returns indexed chunks whose starts
advance by `chunkSize - overlap = 900` characters — each chunk after the
first begins `overlap` characters before the previous full chunk's end —
and a 2150-character (non-whitespace-only) text yields exactly three
chunks, with indices 0, 1, 2, chunk 1 starting at character 900 and chunk 2
starting at character 1800. -/
theorem chunk_starts_advance :
    (∀ (text : List Char) (l : List (Nat × List Char)),
        chunk text 1000 100 = Except.ok l →
        ∀ (j : ℕ) (h : j < l.length),
          l.get ⟨j, h⟩ = (j, (text.drop ((1000 - 100) * j)).take 1000)) ∧
    (∀ text : List Char, text.length = 2150 →
        text.all isWhitespaceChar = false →
        chunk text 1000 100 =
          Except.ok [(0, text.take 1000), (1, (text.drop 900).take 1000),
            (2, (text.drop 1800).take 1000)]) := by
  constructor
  · intro text l hok j h
    unfold chunk at hok
    rw [if_neg (by norm_num)] at hok
    by_cases hws : text.all isWhitespaceChar
    · rw [if_pos hws] at hok
      injection hok with hok
      subst hok
      simp at h
    · rw [if_neg hws] at hok
      injection hok with hok
      subst hok
      simp [chunkStarts, List.getElem_map, List.getElem_enum, List.getElem_range,
        Nat.mul_comm]
  · intro text hlen hws
    have hstarts : chunkStarts 2150 (1000 - 100) = [0, 900, 1800] := by rfl
    unfold chunk
    rw [if_neg (by norm_num), if_neg (by simp [hws]), hlen, hstarts]
    simp [List.enum, List.enumFrom]

/-- Concrete run of `chunk_starts_advance` on a 2150-character text. -/
theorem chunk_starts_advance_witness :
    chunk (List.replicate 2150 'x') 1000 100 =
      Except.ok [(0, (List.replicate 2150 'x').take 1000),
        (1, ((List.replicate 2150 'x').drop 900).take 1000),
        (2, ((List.replicate 2150 'x').drop 1800).take 1000)] :=
  chunk_starts_advance.2 (List.replicate 2150 'x') (List.length_replicate 2150 'x')
    (by rw [List.all_replicate]; rfl)

/-- Claim C6: chunking an empty or whitespace-only text yields zero chunks
and no error, and a chunk size smaller than the overlap fails with the
configuration error. -/
theorem chunk_empty_and_invalid_config :
    (∀ (text : List Char) (chunkSize overlap : Nat), overlap ≤ chunkSize →
        text.all isWhitespaceChar = true →
        chunk text chunkSize overlap = Except.ok []) ∧
    (∀ (text : List Char) (chunkSize overlap : Nat), chunkSize < overlap →
        chunk text chunkSize overlap = Except.error ChunkError.configError) := by
  constructor
  · intro text cs ov hle hws
    unfold chunk
    rw [if_neg (Nat.not_lt.mpr hle), if_pos hws]
  · intro text cs ov hlt
    unfold chunk
    rw [if_pos hlt]

/-- Concrete run of `chunk_empty_and_invalid_config`: a whitespace-only
text chunks to nothing, and chunk size 1 with overlap 2 is rejected. -/
theorem chunk_empty_and_invalid_config_witness :
    chunk [' ', '\t'] 1000 100 = Except.ok [] ∧
    chunk ['a'] 1 2 = Except.error ChunkError.configError :=
  ⟨chunk_empty_and_invalid_config.1 [' ', '\t'] 1000 100 (by norm_num) (by decide),
   chunk_empty_and_invalid_config.2 ['a'] 1 2 (by norm_num)⟩

/-- Any capped value is at most the cap. -/
theorem capAt_le_cap (cap x : ℚ) : capAt cap x ≤ cap := by
  unfold capAt
  by_cases h : cap ≤ x
  · rw [if_pos h]
  · rw [if_neg h]
    linarith [lt_of_not_le h]

/-- A capped value is non-negative when the cap and the value are. -/
theorem capAt_nonneg (cap x : ℚ) (hc : 0 ≤ cap) (hx : 0 ≤ x) : 0 ≤ capAt cap x := by
  unfold capAt
  by_cases h : cap ≤ x
  · rwa [if_pos h]
  · rwa [if_neg h]

/-- The non-negative part is non-negative. -/
theorem nonnegPart_nonneg (x : ℚ) : 0 ≤ nonnegPart x := by
  unfold nonnegPart
  by_cases h : x ≤ 0
  · rw [if_pos h]
  · rw [if_neg h]
    linarith [lt_of_not_le h]

/-- The non-negative part of a value at most one is at most one. -/
theorem nonnegPart_le_one (x : ℚ) (h : x ≤ 1) : nonnegPart x ≤ 1 := by
  unfold nonnegPart
  by_cases hx : x ≤ 0
  · rw [if_pos hx]
    norm_num
  · rwa [if_neg hx]

/-- The skill-score denominator is positive. -/
theorem atLeastOne_pos (n : ℕ) : 0 < atLeastOne n := by
  unfold atLeastOne
  by_cases h : n = 0
  · rw [if_pos h]
    norm_num
  · rw [if_neg h]
    exact_mod_cast Nat.pos_of_ne_zero h

/-- The skill score always lies in the interval from 0 to 100. -/
theorem skillScore_bounds (resumeSkills requiredSkills : List String) :
    0 ≤ skillScore resumeSkills requiredSkills ∧
      skillScore resumeSkills requiredSkills ≤ 100 := by
  unfold skillScore
  refine ⟨capAt_nonneg _ _ (by norm_num) ?_, capAt_le_cap _ _⟩
  apply div_nonneg _ (atLeastOne_pos _).le
  positivity

/-- The experience score lies in the interval from 0 to 100 whenever the
years and the requirement are non-negative. -/
theorem experienceScore_bounds (totalYears minYears : ℚ)
    (hty : 0 ≤ totalYears) (hmy : 0 ≤ minYears) :
    0 ≤ experienceScore totalYears minYears ∧
      experienceScore totalYears minYears ≤ 100 := by
  unfold experienceScore
  by_cases h : minYears = 0
  · rw [if_pos h]
    norm_num
  · rw [if_neg h]
    have hpos : 0 < minYears := lt_of_le_of_ne hmy (Ne.symm h)
    exact ⟨capAt_nonneg _ _ (by norm_num) (by positivity), capAt_le_cap _ _⟩

/-- Unfolding equation for the dot product on cons cells. -/
theorem dot_cons (x y : ℚ) (xs ys : List ℚ) :
    dot (x :: xs) (y :: ys) = x * y + dot xs ys := by
  simp [dot]

/-- The dot product of a vector with itself is non-negative. -/
theorem dot_self_nonneg (a : List ℚ) : 0 ≤ dot a a := by
  induction a with
  | nil => simp [dot]
  | cons x xs ih =>
    rw [dot_cons]
    nlinarith [mul_self_nonneg x]

/-- Expansion of the self dot product of `a - t • b` for same-length
vectors; the key identity behind the Cauchy-Schwarz bound. -/
theorem dot_shift (t : ℚ) (a : List ℚ) : ∀ b : List ℚ, a.length = b.length →
    dot (List.zipWith (fun x y => x - t * y) a b)
        (List.zipWith (fun x y => x - t * y) a b) =
      dot a a - 2 * t * dot a b + t ^ 2 * dot b b := by
  induction a with
  | nil =>
    intro b h
    cases b with
    | nil => simp [dot]
    | cons y ys => simp at h
  | cons x xs ih =>
    intro b h
    cases b with
    | nil => simp at h
    | cons y ys =>
      have h2 := ih ys (by simpa using h)
      simp only [List.zipWith_cons_cons, dot_cons]
      rw [h2]
      ring

/-- Cauchy-Schwarz consequence for unit vectors: the dot product of two
same-length unit vectors is at most one. -/
theorem dot_le_one_of_unit (a b : List ℚ) (hlen : a.length = b.length)
    (ha : dot a a = 1) (hb : dot b b = 1) : dot a b ≤ 1 := by
  have h0 := dot_self_nonneg (List.zipWith (fun x y => x - dot a b * y) a b)
  rw [dot_shift (dot a b) a b hlen, ha, hb] at h0
  nlinarith [sq_nonneg (dot a b - 1)]

/-- Elimination form of a successful scoring call: the inputs passed
validation and the result is the record of the four component formulas. -/
theorem score_ok (resume : ResumeProfile) (job : JobRequirement)
    (re je : Option (List ℚ)) (r : ScoreResult)
    (hok : score resume job re je = Except.ok r) :
    0 ≤ resume.totalExperienceYears ∧ 0 ≤ job.minimumExperienceYears ∧
    r = ⟨skillScore resume.skills job.requiredSkills,
         experienceScore resume.totalExperienceYears job.minimumExperienceYears,
         semanticScore re je,
         totalFromComponents (skillScore resume.skills job.requiredSkills)
           (experienceScore resume.totalExperienceYears job.minimumExperienceYears)
           (semanticScore re je)⟩ := by
  unfold score at hok
  by_cases hbad : resume.totalExperienceYears < 0 ∨ job.minimumExperienceYears < 0
  · rw [if_pos hbad] at hok
    simp at hok
  · rw [if_neg hbad] at hok
    push_neg at hbad
    injection hok with h
    exact ⟨hbad.1, hbad.2, h.symm⟩

/-- The semantic component, when present, lies in the interval from 0 to
100, given that the embeddings respect the embedding-provider contract
(same dimension, unit norm). -/
theorem semanticScore_bounds (re je : Option (List ℚ))
    (hunit : ∀ a b, re = some a → je = some b →
      a.length = b.length ∧ dot a a = 1 ∧ dot b b = 1) :
    ∀ s, semanticScore re je = some s → 0 ≤ s ∧ s ≤ 100 := by
  intro s hs
  cases hre : re with
  | none =>
    rw [hre] at hs
    simp [semanticScore] at hs
  | some a =>
    cases hje : je with
    | none =>
      rw [hre, hje] at hs
      simp [semanticScore] at hs
    | some b =>
      rw [hre, hje] at hs
      simp only [semanticScore, Option.some.injEq] at hs
      subst hs
      obtain ⟨hlen, ha, hb⟩ := hunit a b hre hje
      constructor
      · have := nonnegPart_nonneg (dot a b)
        linarith
      · have := nonnegPart_le_one (dot a b) (dot_le_one_of_unit a b hlen ha hb)
        linarith

/-- The total score lies in the interval from 0 to 100 whenever the
components it is built from do. -/
theorem totalFromComponents_bounds (sk ex : ℚ) (sem : Option ℚ)
    (hsk0 : 0 ≤ sk) (hsk1 : sk ≤ 100) (hex0 : 0 ≤ ex) (hex1 : ex ≤ 100)
    (hsem : ∀ s, sem = some s → 0 ≤ s ∧ s ≤ 100) :
    0 ≤ totalFromComponents sk ex sem ∧ totalFromComponents sk ex sem ≤ 100 := by
  cases sem with
  | none =>
    simp only [totalFromComponents]
    constructor
    · apply div_nonneg (by linarith) (by norm_num)
    · rw [div_le_iff₀ (by norm_num : (0 : ℚ) < 3 / 4)]
      linarith
  | some s =>
    obtain ⟨hs0, hs1⟩ := hsem s rfl
    simp only [totalFromComponents]
    constructor <;> linarith

/-- Evaluation of the scenario skill score: one exact match (Python) out of
two required skills, no loose match, giving 50. -/
theorem skillScore_demo : skillScore ["Python", "Docker"] ["Python", "AWS"] = 50 := by
  unfold skillScore
  rw [show (["Python", "AWS"].filter fun r =>
      ["Python", "Docker"].any fun c => exactSkillMatch r c) = ["Python"] from by decide]
  rw [show (["Python", "AWS"].filter fun r =>
      (!(["Python", "Docker"].any fun c => exactSkillMatch r c)) &&
        (["Python", "Docker"].any fun c => looseSkillMatch r c)) = [] from by decide]
  unfold capAt atLeastOne
  norm_num

/-- Evaluation of the scenario experience score: six years against a
five-year requirement caps at 100. -/
theorem experienceScore_demo : experienceScore 6 5 = 100 := by
  unfold experienceScore capAt
  rw [if_neg (by norm_num : ¬(5 : ℚ) = 0), if_pos (by norm_num : (100 : ℚ) ≤ 100 * 6 / 5)]

/-- Evaluation of the scoring scenario without embeddings. -/
theorem score_demo_eval :
    score demoResume demoJob none none =
      Except.ok ⟨50, 100, none,
        50 * ((1 / 2) / (3 / 4)) + 100 * ((1 / 4) / (3 / 4))⟩ := by
  show score ⟨["Python", "Docker"], 6, "", ""⟩ ⟨["Python", "AWS"], 5, ""⟩ none none = _
  unfold score
  rw [if_neg (by decide)]
  dsimp only
  rw [skillScore_demo, experienceScore_demo]
  simp only [semanticScore, totalFromComponents]
  norm_num

/-- Evaluation of the scoring scenario with orthogonal unit embeddings. -/
theorem score_demo_eval_sem :
    score demoResume demoJob (some [1, 0]) (some [0, 1]) =
      Except.ok ⟨50, 100, some 0, 50⟩ := by
  show score ⟨["Python", "Docker"], 6, "", ""⟩ ⟨["Python", "AWS"], 5, ""⟩
    (some [1, 0]) (some [0, 1]) = _
  unfold score
  rw [if_neg (by decide)]
  dsimp only
  rw [skillScore_demo, experienceScore_demo]
  have hdot : dot [1, 0] [0, 1] = 0 := by norm_num [dot]
  simp only [semanticScore, hdot]
  rw [show nonnegPart 0 = 0 from by unfold nonnegPart; rw [if_pos le_rfl]]
  simp only [totalFromComponents]
  norm_num

/-- Evaluation of scoring against a job with no required skills. -/
theorem score_demo_empty_eval :
    score demoResume ⟨[], 0, ""⟩ none none =
      Except.ok ⟨0, 100, none, (1 / 2 * 0 + 1 / 4 * 100) / (3 / 4)⟩ := by
  show score ⟨["Python", "Docker"], 6, "", ""⟩ ⟨[], 0, ""⟩ none none = _
  unfold score
  rw [if_neg (by decide)]
  dsimp only
  have hsk : skillScore ["Python", "Docker"] [] = 0 := by
    unfold skillScore capAt atLeastOne
    norm_num
  have hex : experienceScore 6 0 = 100 := by
    unfold experienceScore
    rw [if_pos rfl]
  rw [hsk, hex]
  simp only [semanticScore, totalFromComponents]

/-- Claim C1: for every successful scoring call, the total score is the
weighted sum of the present components with the weights (0.5, 0.25, 0.25)
renormalized to sum to one over the present components; and on the scenario
resume (skills Python and Docker, six years) against the scenario job
(requires Python and AWS, minimum five years) with no embeddings, the
result is skill score 50, experience score 100, semantic score absent, and
total score `50 * (0.5/0.75) + 100 * (0.25/0.75)`. -/
theorem totalScore_renormalized :
    (∀ (resume : ResumeProfile) (job : JobRequirement)
        (re je : Option (List ℚ)) (r : ScoreResult),
        score resume job re je = Except.ok r →
        (r.semanticScore = none →
          r.totalScore = r.skillScore * ((1 / 2) / (3 / 4)) +
            r.experienceScore * ((1 / 4) / (3 / 4))) ∧
        ∀ s, r.semanticScore = some s →
          r.totalScore = r.skillScore * (1 / 2) + r.experienceScore * (1 / 4) +
            s * (1 / 4)) ∧
    score demoResume demoJob none none =
      Except.ok ⟨50, 100, none,
        50 * ((1 / 2) / (3 / 4)) + 100 * ((1 / 4) / (3 / 4))⟩ := by
  constructor
  · intro resume job re je r hok
    obtain ⟨-, -, rfl⟩ := score_ok resume job re je r hok
    constructor
    · intro hnone
      dsimp only at hnone ⊢
      rw [hnone]
      simp only [totalFromComponents]
      ring
    · intro s hs
      dsimp only at hs ⊢
      rw [hs]
      simp only [totalFromComponents]
      ring
  · exact score_demo_eval

/-- Concrete run of `totalScore_renormalized` on the scenario inputs with
the semantic component absent. -/
theorem totalScore_renormalized_witness :
    (⟨50, 100, none,
        50 * ((1 / 2) / (3 / 4)) + 100 * ((1 / 4) / (3 / 4))⟩ : ScoreResult).totalScore =
      50 * ((1 / 2) / (3 / 4)) + 100 * ((1 / 4) / (3 / 4)) :=
  (totalScore_renormalized.1 demoResume demoJob none none _
    totalScore_renormalized.2).1 rfl

/-- Claim C3: every score result produced by a successful scoring call has
all component scores and the total score in the interval from 0 to 100,
for well-formed inputs (non-negative years; embeddings, when present, of
equal dimension and unit norm per the embedding-provider contract). -/
theorem score_result_bounded (resume : ResumeProfile) (job : JobRequirement)
    (re je : Option (List ℚ)) (r : ScoreResult)
    (hok : score resume job re je = Except.ok r)
    (hunit : ∀ a b, re = some a → je = some b →
      a.length = b.length ∧ dot a a = 1 ∧ dot b b = 1) :
    0 ≤ r.skillScore ∧ r.skillScore ≤ 100 ∧
    0 ≤ r.experienceScore ∧ r.experienceScore ≤ 100 ∧
    (∀ s, r.semanticScore = some s → 0 ≤ s ∧ s ≤ 100) ∧
    0 ≤ r.totalScore ∧ r.totalScore ≤ 100 := by
  obtain ⟨hty, hmy, rfl⟩ := score_ok resume job re je r hok
  obtain ⟨hsk0, hsk1⟩ := skillScore_bounds resume.skills job.requiredSkills
  obtain ⟨hex0, hex1⟩ :=
    experienceScore_bounds resume.totalExperienceYears job.minimumExperienceYears hty hmy
  have hsem := semanticScore_bounds re je hunit
  obtain ⟨ht0, ht1⟩ := totalFromComponents_bounds _ _ _ hsk0 hsk1 hex0 hex1 hsem
  exact ⟨hsk0, hsk1, hex0, hex1, hsem, ht0, ht1⟩

/-- Concrete run of `score_result_bounded` on the scenario inputs with unit
embeddings present. -/
theorem score_result_bounded_witness :
    0 ≤ (⟨50, 100, some 0, 50⟩ : ScoreResult).skillScore ∧
    (⟨50, 100, some 0, 50⟩ : ScoreResult).skillScore ≤ 100 ∧
    0 ≤ (⟨50, 100, some 0, 50⟩ : ScoreResult).experienceScore ∧
    (⟨50, 100, some 0, 50⟩ : ScoreResult).experienceScore ≤ 100 ∧
    (∀ s, (⟨50, 100, some 0, 50⟩ : ScoreResult).semanticScore = some s →
      0 ≤ s ∧ s ≤ 100) ∧
    0 ≤ (⟨50, 100, some 0, 50⟩ : ScoreResult).totalScore ∧
    (⟨50, 100, some 0, 50⟩ : ScoreResult).totalScore ≤ 100 :=
  score_result_bounded demoResume demoJob (some [1, 0]) (some [0, 1])
    ⟨50, 100, some 0, 50⟩ score_demo_eval_sem
    (fun a b ha hb => by
      cases ha
      cases hb
      exact ⟨rfl, by norm_num [dot], by norm_num [dot]⟩)

/-- Claim C4: when the job requires no skills, the skill score of every
successful scoring call is exactly zero. -/
theorem skillScore_empty_requirements (resume : ResumeProfile)
    (job : JobRequirement) (re je : Option (List ℚ)) (r : ScoreResult)
    (hreq : job.requiredSkills = []) (hok : score resume job re je = Except.ok r) :
    r.skillScore = 0 := by
  obtain ⟨-, -, rfl⟩ := score_ok resume job re je r hok
  dsimp only
  rw [hreq]
  simp [skillScore, atLeastOne, capAt]

/-- Concrete run of `skillScore_empty_requirements` on a job with no
required skills. -/
theorem skillScore_empty_requirements_witness :
    (⟨0, 100, none, (1 / 2 * 0 + 1 / 4 * 100) / (3 / 4)⟩ : ScoreResult).skillScore = 0 :=
  skillScore_empty_requirements demoResume ⟨[], 0, ""⟩ none none
    ⟨0, 100, none, (1 / 2 * 0 + 1 / 4 * 100) / (3 / 4)⟩ rfl score_demo_empty_eval

/-- Claim C2: the batch ranking sorts by descending total score with ties
broken by earliest creation order, assigns rank as the 1-based position,
and consequently a strictly higher total score always receives a strictly
smaller rank. -/
theorem rank_consistent_with_totalScore (l : List ScoredResume) :
    List.Sorted rankLE ((rankBatch l).map Prod.fst) ∧
    (∀ (i : ℕ) (hi : i < (rankBatch l).length),
        ((rankBatch l).get ⟨i, hi⟩).2 = i + 1) ∧
    (∀ (i j : ℕ) (hi : i < (rankBatch l).length) (hj : j < (rankBatch l).length),
        ((rankBatch l).get ⟨j, hj⟩).1.totalScore <
          ((rankBatch l).get ⟨i, hi⟩).1.totalScore →
        ((rankBatch l).get ⟨i, hi⟩).2 < ((rankBatch l).get ⟨j, hj⟩).2) := by
  have hsorted := List.sorted_insertionSort rankLE l
  have hlen : (rankBatch l).length = (List.insertionSort rankLE l).length := by
    simp [rankBatch]
  have hget : ∀ (i : ℕ) (hi : i < (rankBatch l).length),
      (rankBatch l).get ⟨i, hi⟩ =
        ((List.insertionSort rankLE l).get ⟨i, hlen ▸ hi⟩, i + 1) := by
    intro i hi
    simp [rankBatch, List.get_eq_getElem, List.getElem_map, List.getElem_enum]
  refine ⟨?_, ?_, ?_⟩
  · have hmap : (rankBatch l).map Prod.fst = List.insertionSort rankLE l := by
      apply List.ext_getElem
      · simp [rankBatch]
      · intro i h1 h2
        simp [rankBatch, List.getElem_map, List.getElem_enum]
    rw [hmap]
    exact hsorted
  · intro i hi
    rw [hget i hi]
  · intro i j hi hj hlt
    rw [hget i hi, hget j hj] at hlt ⊢
    dsimp only at hlt ⊢
    have hij : i < j := by
      rcases lt_trichotomy i j with h | h | h
      · exact h
      · subst h
        exact absurd hlt (lt_irrefl _)
      · exfalso
        have hr := hsorted.rel_get_of_lt
          (show (⟨j, hlen ▸ hj⟩ : Fin _) < ⟨i, hlen ▸ hi⟩ from Fin.mk_lt_mk.mpr h)
        have hr' : ((List.insertionSort rankLE l).get ⟨i, hlen ▸ hi⟩).totalScore ≤
            ((List.insertionSort rankLE l).get ⟨j, hlen ▸ hj⟩).totalScore := by
          rcases (hr : _ ∨ _) with h1 | ⟨h1, -⟩
          · exact h1.le
          · exact le_of_eq h1.symm
        exact absurd hlt (not_lt.mpr hr')
    exact Nat.succ_lt_succ hij

/-- Concrete run of `rank_consistent_with_totalScore`: in the two-element
scenario batch the higher-scoring resume gets the smaller rank. -/
theorem rank_consistent_with_totalScore_witness :
    ((rankBatch demoBatch).get ⟨0, by decide⟩).2 <
      ((rankBatch demoBatch).get ⟨1, by decide⟩).2 :=
  (rank_consistent_with_totalScore demoBatch).2.2 0 1 (by decide) (by decide)
    (by decide)

/-- Evaluation of the retrieval scenario: querying the one-chunk index
returns that chunk paired with its similarity. -/
theorem query_demo_eval :
    query demoIndex [1, 0] 5 none =
      [(demoChunk, cosineSimilarity [1, 0] demoChunk.embedding)] := by
  simp [query, demoIndex, scopeMatches, List.insertionSort, List.orderedInsert]

/-- Claim C7: `query` is deterministic and returns at most `topK` entries,
sorted by descending cosine similarity with ties broken by ascending chunk
index, each entry carrying the similarity of its chunk; two calls on the
same index state and query vector return the identical sequence. -/
theorem query_topK_sorted_deterministic (index : List Chunk) (q : List ℚ)
    (k : Nat) (f : Option Nat) :
    (query index q k f).length ≤ k ∧
    List.Sorted (queryRel q) ((query index q k f).map Prod.fst) ∧
    (∀ p, p ∈ query index q k f → p.2 = cosineSimilarity q p.1.embedding) ∧
    query index q k f = query index q k f := by
  refine ⟨?_, ?_, ?_, rfl⟩
  · simp only [query, List.length_map, List.length_take]
    exact min_le_left _ _
  · have hs := List.sorted_insertionSort (queryRel q) (index.filter (scopeMatches f))
    have ht := List.Pairwise.sublist (List.take_sublist k _) hs
    have hmap : (query index q k f).map Prod.fst =
        (List.insertionSort (queryRel q) (index.filter (scopeMatches f))).take k := by
      simp [query, List.map_map, Function.comp_def]
    rw [hmap]
    exact ht
  · intro p hp
    simp only [query, List.mem_map] at hp
    obtain ⟨c, -, rfl⟩ := hp
    rfl

/-- Concrete run of `query_topK_sorted_deterministic` on the one-chunk
index: the returned entry carries the similarity of its chunk. -/
theorem query_topK_sorted_deterministic_witness :
    ((demoChunk, cosineSimilarity [1, 0] demoChunk.embedding) : Chunk × ℚ).2 =
      cosineSimilarity [1, 0]
        ((demoChunk, cosineSimilarity [1, 0] demoChunk.embedding) : Chunk × ℚ).1.embedding :=
  (query_topK_sorted_deterministic demoIndex [1, 0] 5 none).2.2.1
    (demoChunk, cosineSimilarity [1, 0] demoChunk.embedding)
    (by rw [query_demo_eval]; exact List.mem_singleton.mpr rfl)

/-- Claim C8 (code bug): the chat history assembled by the page is empty
for every message list, because each single message is mapped to a
question-answer pair whose other side is always the empty string, and the
final filter keeps only pairs with both sides non-empty; in particular even
a complete user-assistant turn is dropped, so no conversation history is
ever submitted. -/
theorem chatHistory_always_empty :
    (∀ messages : List ChatMessage, chatHistory messages = []) ∧
    chatHistory [⟨ChatRole.user, "Who knows Python?"⟩,
      ⟨ChatRole.assistant, "Alice does."⟩] = [] := by
  have key : ∀ messages : List ChatMessage, chatHistory messages = [] := by
    intro messages
    unfold chatHistory
    rw [List.filter_eq_nil_iff]
    intro p hp
    simp only [List.mem_map] at hp
    obtain ⟨m, -, rfl⟩ := hp
    cases hr : m.role <;>
      simp [hr, show ("" : String).isEmpty = true from rfl]
  exact ⟨key, key _⟩

/-- Claim C9: a score in the interval from 0 to 100 is displayed rounded to
one decimal place and stays in that interval, and a relevance fraction in
the interval from 0 to 1 is displayed as a percentage between 0 and 100. -/
theorem display_rounding (s r : ℚ) (hs0 : 0 ≤ s) (hs1 : s ≤ 100)
    (hr0 : 0 ≤ r) (hr1 : r ≤ 1) :
    0 ≤ displayScore s ∧ displayScore s ≤ 100 ∧
    |displayScore s - s| ≤ 1 / 20 ∧
    0 ≤ relevancePercent r ∧ relevancePercent r ≤ 100 := by
  have h1 : ((round (10 * s) : ℤ) : ℚ) ≤ 10 * s + 1 / 2 := round_le_add_half (10 * s)
  have h2 : 10 * s - 1 / 2 < ((round (10 * s) : ℤ) : ℚ) := sub_half_lt_round (10 * s)
  have h3 : ((round (100 * r) : ℤ) : ℚ) ≤ 100 * r + 1 / 2 := round_le_add_half (100 * r)
  have h4 : 100 * r - 1 / 2 < ((round (100 * r) : ℤ) : ℚ) := sub_half_lt_round (100 * r)
  have hz1 : (0 : ℤ) ≤ round (10 * s) := by
    by_contra hneg
    push_neg at hneg
    have hle : round (10 * s) ≤ -1 := by omega
    have hc : ((round (10 * s) : ℤ) : ℚ) ≤ -1 := by exact_mod_cast hle
    linarith
  have hz2 : round (10 * s) ≤ 1000 := by
    by_contra hbig
    push_neg at hbig
    have hle : (1001 : ℤ) ≤ round (10 * s) := by omega
    have hc : (1001 : ℚ) ≤ ((round (10 * s) : ℤ) : ℚ) := by exact_mod_cast hle
    linarith
  have hz3 : (0 : ℤ) ≤ round (100 * r) := by
    by_contra hneg
    push_neg at hneg
    have hle : round (100 * r) ≤ -1 := by omega
    have hc : ((round (100 * r) : ℤ) : ℚ) ≤ -1 := by exact_mod_cast hle
    linarith
  have hz4 : round (100 * r) ≤ 100 := by
    by_contra hbig
    push_neg at hbig
    have hle : (101 : ℤ) ≤ round (100 * r) := by omega
    have hc : (101 : ℚ) ≤ ((round (100 * r) : ℤ) : ℚ) := by exact_mod_cast hle
    linarith
  refine ⟨?_, ?_, ?_, hz3, hz4⟩
  · unfold displayScore
    have : (0 : ℚ) ≤ ((round (10 * s) : ℤ) : ℚ) := by exact_mod_cast hz1
    linarith
  · unfold displayScore
    have : ((round (10 * s) : ℤ) : ℚ) ≤ 1000 := by exact_mod_cast hz2
    linarith
  · unfold displayScore
    rw [abs_le]
    constructor <;> linarith

/-- Concrete run of `display_rounding` at score 85.3 and relevance 0.92. -/
theorem display_rounding_witness :
    0 ≤ displayScore (853 / 10) ∧ displayScore (853 / 10) ≤ 100 ∧
    |displayScore (853 / 10) - 853 / 10| ≤ 1 / 20 ∧
    0 ≤ relevancePercent (92 / 100) ∧ relevancePercent (92 / 100) ≤ 100 :=
  display_rounding (853 / 10) (92 / 100) (by norm_num) (by norm_num)
    (by norm_num) (by norm_num)

/-- Claim C10: the AI query page sends a request only when the trimmed
input is non-empty and no request is pending — `handleSubmit` returns early
otherwise, and the send button is disabled exactly when `handleSubmit`
would refuse. -/
theorem submit_requires_nonempty_and_idle (s : AIQueryState) :
    (∀ q, handleSubmit s = some q →
      trimText s.input ≠ [] ∧ s.pending = false ∧ q = s.input) ∧
    (sendDisabled s = true ↔ handleSubmit s = none) := by
  constructor
  · intro q hq
    unfold handleSubmit at hq
    by_cases h : trimText s.input = [] ∨ s.pending = true
    · rw [if_pos h] at hq
      cases hq
    · rw [if_neg h] at hq
      push_neg at h
      injection hq with hq
      exact ⟨h.1, Bool.eq_false_iff.mpr h.2, hq.symm⟩
  · unfold sendDisabled handleSubmit
    by_cases h1 : trimText s.input = [] <;> by_cases h2 : s.pending = true <;>
      simp [h1, h2]

/-- Concrete run of `submit_requires_nonempty_and_idle`: an idle page with
a non-blank input submits that exact input. -/
theorem submit_requires_nonempty_and_idle_witness :
    trimText (AIQueryState.mk "Who knows Rust?" false).input ≠ [] ∧
    (AIQueryState.mk "Who knows Rust?" false).pending = false ∧
    "Who knows Rust?" = (AIQueryState.mk "Who knows Rust?" false).input :=
  (submit_requires_nonempty_and_idle ⟨"Who knows Rust?", false⟩).1
    "Who knows Rust?" (by decide)

end SmartHire
